import Mathlib

/-!
Verification of the key-serialization core of `gm-crypto` (`utils/keys.go`):
conversion of SM2 private/public keys between in-memory structures and
(optionally password-encrypted) PEM/ASN.1 encodings.

The pure Go logic of `utils/keys.go` is embedded directly.  Collaborators
from the repository's `x509` package, whose sources are not available here,
are modelled from the design document; their doc comments start with
`Modelled from the spec:`.  ASN.1 marshaling and PEM framing (Go standard
library collaborators) are represented structurally: a DER payload is an
element of the inductive type `Bytes`, where the constructors record which
ASN.1 structure was marshaled, since DER serialization of distinct
structures is injective and its byte-level layout is out of scope.
-/

/-- Big-endian base-256 value of a byte list, as `x509` readers interpret
the fixed-width `PrivateKey` field. -/
def bytesToNat (bs : List Nat) : Nat :=
  bs.foldl (fun a b => a * 256 + b) 0

/-- Fuel-driven worker for `natToBytes`. -/
def natToBytesAux : Nat → Nat → List Nat
  | 0, _ => []
  | fuel + 1, n => if n = 0 then [] else natToBytesAux fuel (n / 256) ++ [n % 256]

/-- Minimal big-endian byte encoding of a natural number; `[]` for `0`.
This is Go's `big.Int.Bytes()`. -/
def natToBytes (n : Nat) : List Nat :=
  natToBytesAux n n

/-- Fuel-driven worker for `bitLen`. -/
def bitLenAux : Nat → Nat → Nat
  | 0, _ => 0
  | fuel + 1, n => if n = 0 then 0 else bitLenAux fuel (n / 2) + 1

/-- Number of bits in the binary representation; `0` for `0`.
This is Go's `big.Int.BitLen()`. -/
def bitLen (n : Nat) : Nat :=
  bitLenAux n n

/-- Go's `copy(padded[len(padded)-len(bs):], bs)` into a fresh zero buffer of
length `k`: left-pads `bs` with zero bytes to width `k`.  When
`len(bs) > k` the Go slice expression has a negative index and panics at
run time; that case is `none`. -/
def padTo (k : Nat) (bs : List Nat) : Option (List Nat) :=
  if bs.length ≤ k then some (List.replicate (k - bs.length) 0 ++ bs) else none

/-- An elliptic curve's parameters as used by `keys.go`: `n` is the group
order (`Params().N`), `bitSize` is the field bit size (`Params().BitSize`),
`p` the field prime.  The name identifies the curve. -/
structure Curve where
  name : String
  p : Nat
  n : Nat
  bitSize : Nat
deriving DecidableEq, Repr

/-- The SM2 recommended curve (GB/T 32918): the one curve this codec
supports. -/
def sm2P256 : Curve :=
  { name := "SM2-P-256"
    p := 0xFFFFFFFEFFFFFFFFFFFFFFFFFFFFFFFFFFFFFFFF00000000FFFFFFFFFFFFFFFF
    n := 0xFFFFFFFEFFFFFFFFFFFFFFFFFFFFFFFF7203DF6B21C6052B53BBF40939D54123
    bitSize := 256 }

/-- `(privateKey.Curve.Params().N.BitLen()+7)/8`: the byte width of the
curve order, to which the scalar is padded. -/
def orderBytes (c : Curve) : Nat :=
  (bitLen c.n + 7) / 8

/-- `(curve.Params().BitSize+7)/8`: the byte width of a field coordinate in
`elliptic.Marshal`. -/
def fieldBytes (c : Curve) : Nat :=
  (c.bitSize + 7) / 8

/-- An SM2 private key (`sm2.PrivateKey`): curve, public point, secret
scalar. -/
structure SM2PrivateKey where
  curve : Curve
  x : Nat
  y : Nat
  d : Nat
deriving DecidableEq, Repr

/-- An SM2 public key (`sm2.PublicKey`): curve and point. -/
structure SM2PublicKey where
  curve : Curve
  x : Nat
  y : Nat
deriving DecidableEq, Repr

/-- The spec's validity invariant for private keys: the SM2 curve is set,
`D ∈ [1, N-1]`, and the point coordinates are field elements. -/
def ValidPriv (k : SM2PrivateKey) : Prop :=
  k.curve = sm2P256 ∧ 1 ≤ k.d ∧ k.d < k.curve.n ∧ k.x < k.curve.p ∧ k.y < k.curve.p

/-- Validity for public keys: SM2 curve set and coordinates in the field. -/
def ValidPub (q : SM2PublicKey) : Prop :=
  q.curve = sm2P256 ∧ q.x < q.curve.p ∧ q.y < q.curve.p

instance (k : SM2PrivateKey) : Decidable (ValidPriv k) := by
  unfold ValidPriv; infer_instance

instance (q : SM2PublicKey) : Decidable (ValidPub q) := by
  unfold ValidPub; infer_instance

/-- `oidNamedCurveSm2 = 1.2.156.10197.1.301`. -/
def oidNamedCurveSm2 : List Nat := [1, 2, 156, 10197, 1, 301]

/-- `oidPublicKeyECDSA = 1.2.840.10045.2.1`. -/
def oidPublicKeyECDSA : List Nat := [1, 2, 840, 10045, 2, 1]

/-- The `ecPrivateKey` ASN.1 structure of `keys.go`.  The two optional
fields are omitted by Go's `asn1.Marshal` exactly when they hold the zero
value, hence `Option`: `none` is the omitted field. -/
structure ecPrivateKey where
  Version : Nat
  PrivateKey : List Nat
  NamedCurveOID : Option (List Nat)
  PublicKey : Option (List Nat)
deriving DecidableEq, Repr

/-- A DER payload, identified by the ASN.1 structure it serializes.
`raw` is an unstructured byte string; `derPkcs8` is `asn1.Marshal` of a
`pkcs8Info` value (version, algorithm identifiers, inner key bytes);
`derPKIX` is a marshaled `SubjectPublicKeyInfo`; `derOther` is the
well-formed encoding of a key of an unrelated algorithm (such as RSA) that
the parsers recognize; `encrypted` is the ciphertext of a payload under a
password. -/
inductive Bytes where
  | raw (bs : List Nat)
  | derEC (e : ecPrivateKey)
  | derPkcs8 (Version : Nat) (PrivateKeyAlgorithm : List (List Nat)) (PrivateKey : Bytes)
  | derPKIX (algorithm : List (List Nat)) (point : List Nat)
  | derOther
  | encrypted (payload : Bytes) (pwd : List Nat)
deriving DecidableEq, Repr

/-- The PEM ciphers of `x509.PEMCipher`; `keys.go` always selects
`PEMCipherAES256`. -/
inductive PEMCipher where
  | aes128
  | aes256
  | tripleDES
deriving DecidableEq, Repr

/-- A `pem.Block`: type line, encrypted-PEM headers (represented by the
`encrypted` flag and the cipher from the `DEK-Info` header), and payload. -/
structure PEMBlock where
  blockType : String
  encrypted : Bool
  cipher : Option PEMCipher
  body : Bytes
deriving DecidableEq, Repr

/-- The byte input handed to an importer, as seen through `pem.Decode`:
`empty` is a zero-length input, `noBlock` a non-empty input in which
`pem.Decode` finds no block, `block b` an input whose first PEM block is
`b`.  `pem.EncodeToMemory` of a block decodes back to that block. -/
inductive PEMInput where
  | empty
  | noBlock
  | block (b : PEMBlock)
deriving DecidableEq, Repr

/-- The spec's error kinds (§7), to which the Go error values map. -/
inductive KeyError where
  | invalidKey
  | invalidInput
  | decodeError
  | missingPassword
  | decryptionError
  | encodingError
  | typeMismatch
  | parseError
deriving DecidableEq, Repr

/-- The outcome of a Go function returning `(T, error)`; `panic` is a
run-time panic (out-of-range slice index), which is not an error value. -/
inductive GoResult (α : Type) where
  | ok (a : α)
  | error (e : KeyError)
  | panic
deriving DecidableEq, Repr

/-- The dynamic type of the value returned by `x509.ParsePKCS8PrivateKey`:
either an `*sm2.PrivateKey` or a key of another algorithm. -/
inductive ParsedKey where
  | sm2Priv (k : SM2PrivateKey)
  | other
deriving DecidableEq, Repr

/-- The dynamic type of the value returned by `x509.ParsePKIXPublicKey`. -/
inductive ParsedPub where
  | sm2Pub (q : SM2PublicKey)
  | otherPub
deriving DecidableEq, Repr

/-- `elliptic.Marshal(curve, x, y)`: the uncompressed point
`0x04 ‖ X ‖ Y`, each coordinate left-padded to the field byte width;
`none` when a coordinate does not fit (Go panics there). -/
def ellipticMarshal (c : Curve) (x y : Nat) : Option (List Nat) :=
  match padTo (fieldBytes c) (natToBytes x), padTo (fieldBytes c) (natToBytes y) with
  | some xb, some yb => some (4 :: (xb ++ yb))
  | _, _ => none

/-- Inverse of the uncompressed point encoding: accepts
`0x04 ‖ X ‖ Y` of the exact field width and reads the coordinates. -/
def unmarshalPoint (c : Curve) (bs : List Nat) : Option (Nat × Nat) :=
  if bs.length = 1 + 2 * fieldBytes c ∧ bs.head? = some 4 then
    some (bytesToNat ((bs.drop 1).take (fieldBytes c)),
          bytesToNat ((bs.drop 1).drop (fieldBytes c)))
  else none

/-- Modelled from the spec: `x509.EncryptPEMBlock(rand, type, raw, pwd,
cipher)` from the repository's `x509` package (source not available).
Per §4.1b/§6 it produces a PEM block of the given type carrying the
standard encrypted-PEM headers (so the block is marked encrypted, with the
cipher recorded in `DEK-Info`) whose payload is the raw bytes symmetrically
encrypted under the password. -/
def encryptPEMBlock (blockType : String) (raw : Bytes) (pwd : List Nat)
    (cipher : PEMCipher) : PEMBlock :=
  { blockType := blockType
    encrypted := true
    cipher := some cipher
    body := Bytes.encrypted raw pwd }

/-- Modelled from the spec: `x509.IsEncryptedPEMBlock` from the
repository's `x509` package (source not available).  Per §6 it reports
whether the block carries the encrypted-PEM headers. -/
def isEncryptedPEMBlock (b : PEMBlock) : Bool :=
  b.encrypted

/-- Modelled from the spec: `x509.DecryptPEMBlock` from the repository's
`x509` package (source not available).  Per §4.2/§7 it recovers the
plaintext payload when the password matches and fails (`DecryptionError`
at the caller) on a cipher/password mismatch — never yielding wrong
plaintext silently. -/
def decryptPEMBlock (b : PEMBlock) (pwd : List Nat) : Except Unit Bytes :=
  match b.body with
  | Bytes.encrypted payload p => if pwd = p then Except.ok payload else Except.error ()
  | _ => Except.error ()

/-- Reads an `ecPrivateKey` structure into an `*sm2.PrivateKey`: checks the
EC-key version and, when present, the named-curve identifier; interprets
the fixed-width `PrivateKey` field as the big-endian scalar `D` and the
embedded bit string as the uncompressed public point.  Used by the
spec-modelled PKCS8 parser. -/
def readECPrivateKey (e : ecPrivateKey) : Except KeyError ParsedKey :=
  if e.Version ≠ 1 then Except.error KeyError.parseError
  else if e.NamedCurveOID.any (fun oid => oid != oidNamedCurveSm2) then
    Except.error KeyError.parseError
  else
    match e.PublicKey with
    | none => Except.error KeyError.parseError
    | some pt =>
      match unmarshalPoint sm2P256 pt with
      | none => Except.error KeyError.parseError
      | some (x, y) =>
        Except.ok (ParsedKey.sm2Priv
          { curve := sm2P256, x := x, y := y, d := bytesToNat e.PrivateKey })

/-- Modelled from the spec: `x509.ParsePKCS8PrivateKey` from the
repository's `x509` package (source not available).  Per §4.2 it parses
the DER payload as a PKCS8-style structure and extracts the inner key
material as the curve-specific private key; per §8 it must accept both the
PKCS8-wrapped form (plain export) and the standalone EC-key form with the
named-curve identifier (the encrypted export's plaintext), and it can also
successfully parse a key of an unrelated algorithm (§4.2's type-check
rationale), which the caller then rejects. -/
def parsePKCS8PrivateKey : Bytes → Except KeyError ParsedKey
  | Bytes.derPkcs8 _ algs inner =>
    if algs.head? = some oidPublicKeyECDSA then
      match inner with
      | Bytes.derEC e => readECPrivateKey e
      | _ => Except.error KeyError.parseError
    else Except.error KeyError.parseError
  | Bytes.derEC e => readECPrivateKey e
  | Bytes.derOther => Except.ok ParsedKey.other
  | _ => Except.error KeyError.parseError

/-- Modelled from the spec: `x509.MarshalPKIXPublicKey` from the
repository's `x509` package (source not available).  Per §4.3/§6 it builds
the one standard public-key-info DER shape: algorithm identifiers for the
EC algorithm and the SM2 curve, and the uncompressed point
`0x04 ‖ X ‖ Y` (Go's `elliptic.Marshal` panics when a coordinate exceeds
the field width, hence `none`). -/
def marshalPKIXPublicKey (q : SM2PublicKey) : Option Bytes :=
  (ellipticMarshal q.curve q.x q.y).map
    (fun pt => Bytes.derPKIX [oidPublicKeyECDSA, oidNamedCurveSm2] pt)

/-- Modelled from the spec: `x509.ParsePKIXPublicKey` from the repository's
`x509` package (source not available).  Per §4.4 it parses a public-key-info
structure and extracts curve identifier and point; a well-formed key of an
unrelated algorithm also parses, yielding a non-SM2 value for the caller's
type check. -/
def parsePKIXPublicKey : Bytes → Except KeyError ParsedPub
  | Bytes.derPKIX algs pt =>
    if algs.head? = some oidPublicKeyECDSA then
      match unmarshalPoint sm2P256 pt with
      | none => Except.error KeyError.parseError
      | some (x, y) => Except.ok (ParsedPub.sm2Pub { curve := sm2P256, x := x, y := y })
    else Except.error KeyError.parseError
  | Bytes.derOther => Except.ok ParsedPub.otherPub
  | _ => Except.error KeyError.parseError

/-- `PrivateKeyToEncryptedPEM` (`keys.go:85-113`): nil check, fixed-width
scalar padding, standalone `ecPrivateKey` with `NamedCurveOID` present and
the public point embedded, AES-256 encrypted PEM block of type
`"PRIVATE KEY"`. -/
def PrivateKeyToEncryptedPEM (priKey : Option SM2PrivateKey) (pwd : List Nat) :
    GoResult PEMInput :=
  match priKey with
  | none => GoResult.error KeyError.invalidKey
  | some k =>
    match padTo (orderBytes k.curve) (natToBytes k.d) with
    | none => GoResult.panic
    | some paddedPrivateKey =>
      match ellipticMarshal k.curve k.x k.y with
      | none => GoResult.panic
      | some pt =>
        GoResult.ok (PEMInput.block (encryptPEMBlock "PRIVATE KEY"
          (Bytes.derEC
            { Version := 1
              PrivateKey := paddedPrivateKey
              NamedCurveOID := some oidNamedCurveSm2
              PublicKey := some pt })
          pwd PEMCipher.aes256))

/-- `PrivateKeyToPEM` (`keys.go:44-82`): non-empty password delegates to the
encrypted path; otherwise nil check, fixed-width scalar padding, inner
`ecPrivateKey` with `NamedCurveOID` omitted and the public point embedded,
wrapped in the `pkcs8Info` container with the two algorithm identifiers,
inside a plain PEM block of type `"PRIVATE KEY"`. -/
def PrivateKeyToPEM (privateKey : Option SM2PrivateKey) (pwd : List Nat) :
    GoResult PEMInput :=
  if pwd.length ≠ 0 then PrivateKeyToEncryptedPEM privateKey pwd
  else
    match privateKey with
    | none => GoResult.error KeyError.invalidKey
    | some k =>
      match padTo (orderBytes k.curve) (natToBytes k.d) with
      | none => GoResult.panic
      | some paddedPrivateKey =>
        match ellipticMarshal k.curve k.x k.y with
        | none => GoResult.panic
        | some pt =>
          GoResult.ok (PEMInput.block
            { blockType := "PRIVATE KEY"
              encrypted := false
              cipher := none
              body := Bytes.derPkcs8 0 [oidPublicKeyECDSA, oidNamedCurveSm2]
                (Bytes.derEC
                  { Version := 1
                    PrivateKey := paddedPrivateKey
                    NamedCurveOID := none
                    PublicKey := some pt }) })

/-- `PEMtoPrivateKey` (`keys.go:118-159`): empty-input check, PEM decode,
encrypted branch (password required, decrypt, PKCS8 parse, type assert) and
plain branch (PKCS8 parse, type assert). -/
def PEMtoPrivateKey (raw : PEMInput) (pwd : List Nat) : GoResult SM2PrivateKey :=
  match raw with
  | PEMInput.empty => GoResult.error KeyError.invalidInput
  | PEMInput.noBlock => GoResult.error KeyError.decodeError
  | PEMInput.block b =>
    if isEncryptedPEMBlock b then
      if pwd.length = 0 then GoResult.error KeyError.missingPassword
      else
        match decryptPEMBlock b pwd with
        | Except.error _ => GoResult.error KeyError.decryptionError
        | Except.ok decrypted =>
          match parsePKCS8PrivateKey decrypted with
          | Except.error e => GoResult.error e
          | Except.ok (ParsedKey.sm2Priv k) => GoResult.ok k
          | Except.ok ParsedKey.other => GoResult.error KeyError.typeMismatch
    else
      match parsePKCS8PrivateKey b.body with
      | Except.error e => GoResult.error e
      | Except.ok (ParsedKey.sm2Priv k) => GoResult.ok k
      | Except.ok ParsedKey.other => GoResult.error KeyError.typeMismatch

/-- `PublicKeyToEncryptedPEM` (`keys.go:185-208`): nil check, then the
empty-password check, then PKIX marshal and AES-256 encrypted PEM block of
type `"PUBLIC KEY"`. -/
def PublicKeyToEncryptedPEM (publicKey : Option SM2PublicKey) (pwd : List Nat) :
    GoResult PEMInput :=
  match publicKey with
  | none => GoResult.error KeyError.invalidKey
  | some q =>
    if pwd.length = 0 then GoResult.error KeyError.missingPassword
    else
      match marshalPKIXPublicKey q with
      | none => GoResult.panic
      | some raw =>
        GoResult.ok (PEMInput.block (encryptPEMBlock "PUBLIC KEY" raw pwd PEMCipher.aes256))

/-- `PublicKeyToPEM` (`keys.go:162-182`): non-empty password delegates to
the encrypted path; otherwise nil check, PKIX marshal, plain PEM block of
type `"PUBLIC KEY"`. -/
def PublicKeyToPEM (publicKey : Option SM2PublicKey) (pwd : List Nat) :
    GoResult PEMInput :=
  if pwd.length ≠ 0 then PublicKeyToEncryptedPEM publicKey pwd
  else
    match publicKey with
    | none => GoResult.error KeyError.invalidKey
    | some q =>
      match marshalPKIXPublicKey q with
      | none => GoResult.panic
      | some raw =>
        GoResult.ok (PEMInput.block
          { blockType := "PUBLIC KEY", encrypted := false, cipher := none, body := raw })

/-- `PEMtoPublicKey` (`keys.go:211-253`): same control flow as
`PEMtoPrivateKey` with the PKIX parser and `*sm2.PublicKey` type assert. -/
def PEMtoPublicKey (raw : PEMInput) (pwd : List Nat) : GoResult SM2PublicKey :=
  match raw with
  | PEMInput.empty => GoResult.error KeyError.invalidInput
  | PEMInput.noBlock => GoResult.error KeyError.decodeError
  | PEMInput.block b =>
    if isEncryptedPEMBlock b then
      if pwd.length = 0 then GoResult.error KeyError.missingPassword
      else
        match decryptPEMBlock b pwd with
        | Except.error _ => GoResult.error KeyError.decryptionError
        | Except.ok decrypted =>
          match parsePKIXPublicKey decrypted with
          | Except.error e => GoResult.error e
          | Except.ok (ParsedPub.sm2Pub q) => GoResult.ok q
          | Except.ok ParsedPub.otherPub => GoResult.error KeyError.typeMismatch
    else
      match parsePKIXPublicKey b.body with
      | Except.error e => GoResult.error e
      | Except.ok (ParsedPub.sm2Pub q) => GoResult.ok q
      | Except.ok ParsedPub.otherPub => GoResult.error KeyError.typeMismatch

/-- Appending a low byte multiplies the accumulated value by the base. -/
lemma bytesToNat_append (xs : List Nat) (b : Nat) :
    bytesToNat (xs ++ [b]) = bytesToNat xs * 256 + b := by
  simp [bytesToNat, List.foldl_append]

/-- The fuel-driven encoder is a right inverse of `bytesToNat` once the fuel
dominates the argument. -/
lemma natToBytesAux_bytesToNat (fuel : Nat) :
    ∀ n, n ≤ fuel → bytesToNat (natToBytesAux fuel n) = n := by
  induction fuel with
  | zero =>
    intro n hn
    have hn0 : n = 0 := by omega
    subst hn0
    simp [natToBytesAux, bytesToNat]
  | succ fuel ih =>
    intro n hn
    by_cases h0 : n = 0
    · subst h0; simp [natToBytesAux, bytesToNat]
    · have hdiv : n / 256 ≤ fuel := by
        have := Nat.div_lt_self (Nat.pos_of_ne_zero h0) (by norm_num : 1 < 256)
        omega
      simp only [natToBytesAux, if_neg h0, bytesToNat_append, ih (n / 256) hdiv]
      have := Nat.div_add_mod n 256
      omega

/-- `big.Int.Bytes` composed with big-endian evaluation is the identity. -/
lemma bytesToNat_natToBytes (n : Nat) : bytesToNat (natToBytes n) = n :=
  natToBytesAux_bytesToNat n n le_rfl

/-- A value below `2^(8k)` encodes in at most `k` bytes. -/
lemma natToBytesAux_length (fuel : Nat) :
    ∀ n k, n ≤ fuel → n < 2 ^ (8 * k) → (natToBytesAux fuel n).length ≤ k := by
  induction fuel with
  | zero =>
    intro n k hn _
    have hn0 : n = 0 := by omega
    subst hn0
    simp [natToBytesAux]
  | succ fuel ih =>
    intro n k hn hk
    by_cases h0 : n = 0
    · subst h0; simp [natToBytesAux]
    · simp only [natToBytesAux, if_neg h0, List.length_append, List.length_cons,
        List.length_nil]
      cases k with
      | zero =>
        exfalso
        have h1 : (2 : Nat) ^ (8 * 0) = 1 := by norm_num
        rw [h1] at hk
        omega
      | succ k' =>
        have hdiv : n / 256 ≤ fuel := by
          have := Nat.div_lt_self (Nat.pos_of_ne_zero h0) (by norm_num : 1 < 256)
          omega
        have hlt : n / 256 < 2 ^ (8 * k') := by
          have hsplit : n < 256 * 2 ^ (8 * k') := by
            have h8 : 8 * (k' + 1) = 8 + 8 * k' := by ring
            rw [h8, pow_add] at hk
            norm_num at hk
            exact hk
          exact Nat.div_lt_of_lt_mul hsplit
        have := ih (n / 256) k' hdiv hlt
        omega

/-- A value of at least `2^(8k)` needs strictly more than `k` bytes. -/
lemma natToBytesAux_length_gt (fuel : Nat) :
    ∀ n k, n ≤ fuel → 2 ^ (8 * k) ≤ n → k < (natToBytesAux fuel n).length := by
  induction fuel with
  | zero =>
    intro n k hn hk
    have hpos : 0 < (2 : Nat) ^ (8 * k) := pow_pos (by norm_num) _
    omega
  | succ fuel ih =>
    intro n k hn hk
    have hpos : 0 < (2 : Nat) ^ (8 * k) := pow_pos (by norm_num) _
    have h0 : n ≠ 0 := by omega
    simp only [natToBytesAux, if_neg h0, List.length_append, List.length_cons,
      List.length_nil]
    cases k with
    | zero => omega
    | succ k' =>
      have hdiv : n / 256 ≤ fuel := by
        have := Nat.div_lt_self (Nat.pos_of_ne_zero h0) (by norm_num : 1 < 256)
        omega
      have hge : 2 ^ (8 * k') ≤ n / 256 := by
        have hsplit : 2 ^ (8 * k') * 256 ≤ n := by
          have h8 : 8 * (k' + 1) = 8 * k' + 8 := by ring
          rw [h8, pow_add] at hk
          norm_num at hk
          exact hk
        exact (Nat.le_div_iff_mul_le (by norm_num)).mpr hsplit
      have := ih (n / 256) k' hdiv hge
      omega

/-- Byte-length bound for `natToBytes`. -/
lemma natToBytes_length_le {n k : Nat} (h : n < 2 ^ (8 * k)) :
    (natToBytes n).length ≤ k :=
  natToBytesAux_length n n k le_rfl h

/-- Byte-length lower bound for `natToBytes`. -/
lemma natToBytes_length_gt {n k : Nat} (h : 2 ^ (8 * k) ≤ n) :
    k < (natToBytes n).length :=
  natToBytesAux_length_gt n n k le_rfl h

/-- Folding the big-endian accumulator over zero bytes stays at zero. -/
lemma foldl_replicate_zero (z : Nat) :
    List.foldl (fun a b => a * 256 + b) 0 (List.replicate z 0) = 0 := by
  induction z with
  | zero => rfl
  | succ z ih => simpa [List.replicate_succ] using ih

/-- Leading zero bytes do not change the big-endian value. -/
lemma bytesToNat_replicate_append (z : Nat) (bs : List Nat) :
    bytesToNat (List.replicate z 0 ++ bs) = bytesToNat bs := by
  simp [bytesToNat, List.foldl_append, foldl_replicate_zero]

/-- The scalar or coordinate `n` left-padded with zero bytes to the 32-byte
width of the SM2 curve. -/
def pad32 (n : Nat) : List Nat :=
  List.replicate (32 - (natToBytes n).length) 0 ++ natToBytes n

/-- Padding restores the exact 32-byte width. -/
lemma pad32_length {n : Nat} (h : (natToBytes n).length ≤ 32) :
    (pad32 n).length = 32 := by
  simp [pad32]
  omega

/-- The padded field still evaluates to the original value. -/
lemma bytesToNat_pad32 (n : Nat) : bytesToNat (pad32 n) = n := by
  simp [pad32, bytesToNat_replicate_append, bytesToNat_natToBytes]

/-- `padTo 32` succeeds on a short-enough encoding and yields `pad32`. -/
lemma padTo32_eq {n : Nat} (h : (natToBytes n).length ≤ 32) :
    padTo 32 (natToBytes n) = some (pad32 n) := by
  simp [padTo, pad32, h]

set_option maxRecDepth 4000 in
/-- The SM2 order has 256 bits, so the scalar field is 32 bytes wide. -/
lemma orderBytes_sm2 : orderBytes sm2P256 = 32 := by decide

/-- The SM2 field bit size gives 32-byte coordinates. -/
lemma fieldBytes_sm2 : fieldBytes sm2P256 = 32 := by decide

/-- The SM2 group order fits in 256 bits. -/
lemma sm2_n_lt : sm2P256.n < 2 ^ 256 := by norm_num [sm2P256]

/-- The SM2 field prime fits in 256 bits. -/
lemma sm2_p_lt : sm2P256.p < 2 ^ 256 := by norm_num [sm2P256]

/-- A 256-bit value encodes in at most 32 bytes. -/
lemma natToBytes_length_le32 {n : Nat} (h : n < 2 ^ 256) :
    (natToBytes n).length ≤ 32 := by
  apply natToBytes_length_le (k := 32)
  norm_num
  exact h

/-- `elliptic.Marshal` on in-range SM2 coordinates yields the uncompressed
point with both coordinates padded to 32 bytes. -/
lemma ellipticMarshal_valid {x y : Nat} (hx : x < 2 ^ 256) (hy : y < 2 ^ 256) :
    ellipticMarshal sm2P256 x y = some (4 :: (pad32 x ++ pad32 y)) := by
  have hx' := padTo32_eq (natToBytes_length_le32 hx)
  have hy' := padTo32_eq (natToBytes_length_le32 hy)
  simp [ellipticMarshal, fieldBytes_sm2, hx', hy']

/-- Reading back the uncompressed point recovers both coordinates. -/
lemma unmarshalPoint_pad32 {x y : Nat} (hx : x < 2 ^ 256) (hy : y < 2 ^ 256) :
    unmarshalPoint sm2P256 (4 :: (pad32 x ++ pad32 y)) = some (x, y) := by
  have hx' := pad32_length (natToBytes_length_le32 hx)
  have hy' := pad32_length (natToBytes_length_le32 hy)
  have htake : (pad32 x ++ pad32 y).take 32 = pad32 x := by
    rw [← hx']
    exact List.take_left _ _
  have hdrop : (pad32 x ++ pad32 y).drop 32 = pad32 y := by
    rw [← hx']
    exact List.drop_left _ _
  simp only [unmarshalPoint, fieldBytes_sm2]
  rw [if_pos]
  · simp only [List.drop_succ_cons, List.drop_zero, htake, hdrop,
      bytesToNat_pad32]
  · constructor
    · simp [hx', hy']
    · rfl

/-- `padTo` fails (Go panics) exactly when the encoding is too long. -/
lemma padTo_none {k : Nat} {bs : List Nat} (h : k < bs.length) :
    padTo k bs = none := by
  simp [padTo]
  omega

/-- The inner `ecPrivateKey` built by the plain private-key export path:
version 1, padded scalar, curve identifier omitted, point embedded. -/
def plainInnerEC (k : SM2PrivateKey) : ecPrivateKey :=
  { Version := 1
    PrivateKey := pad32 k.d
    NamedCurveOID := none
    PublicKey := some (4 :: (pad32 k.x ++ pad32 k.y)) }

/-- The standalone `ecPrivateKey` built by the encrypted private-key export
path: version 1, padded scalar, curve identifier present, point embedded. -/
def encInnerEC (k : SM2PrivateKey) : ecPrivateKey :=
  { Version := 1
    PrivateKey := pad32 k.d
    NamedCurveOID := some oidNamedCurveSm2
    PublicKey := some (4 :: (pad32 k.x ++ pad32 k.y)) }

/-- The plain private-key PEM block: PKCS8 wrapper around the inner key. -/
def plainPrivBlock (k : SM2PrivateKey) : PEMBlock :=
  { blockType := "PRIVATE KEY"
    encrypted := false
    cipher := none
    body := Bytes.derPkcs8 0 [oidPublicKeyECDSA, oidNamedCurveSm2]
      (Bytes.derEC (plainInnerEC k)) }

/-- The encrypted private-key PEM block: AES-256 ciphertext of the
standalone EC form. -/
def encPrivBlock (k : SM2PrivateKey) (pwd : List Nat) : PEMBlock :=
  { blockType := "PRIVATE KEY"
    encrypted := true
    cipher := some PEMCipher.aes256
    body := Bytes.encrypted (Bytes.derEC (encInnerEC k)) pwd }

/-- The PKIX public-key DER payload for an SM2 public key. -/
def pkixBody (q : SM2PublicKey) : Bytes :=
  Bytes.derPKIX [oidPublicKeyECDSA, oidNamedCurveSm2] (4 :: (pad32 q.x ++ pad32 q.y))

/-- The plain export path reduces, for an SM2-curve key whose scalar
encoding fits the order width and whose coordinates fit the field, to the
PKCS8-wrapped block. -/
lemma PrivateKeyToPEM_plain_ok (k : SM2PrivateKey) (hc : k.curve = sm2P256)
    (hd : (natToBytes k.d).length ≤ 32) (hx : k.x < 2 ^ 256) (hy : k.y < 2 ^ 256) :
    PrivateKeyToPEM (some k) [] = GoResult.ok (PEMInput.block (plainPrivBlock k)) := by
  cases k with
  | mk curve x y d =>
    simp only at hc
    subst hc
    simp only at hd hx hy
    simp [PrivateKeyToPEM, orderBytes_sm2, padTo32_eq hd, ellipticMarshal_valid hx hy,
      plainPrivBlock, plainInnerEC]

/-- The encrypted export path reduces, under the same bounds, to the
AES-256-encrypted standalone EC block (for any password). -/
lemma PrivateKeyToEncryptedPEM_ok (k : SM2PrivateKey) (pwd : List Nat)
    (hc : k.curve = sm2P256) (hd : (natToBytes k.d).length ≤ 32)
    (hx : k.x < 2 ^ 256) (hy : k.y < 2 ^ 256) :
    PrivateKeyToEncryptedPEM (some k) pwd =
      GoResult.ok (PEMInput.block (encPrivBlock k pwd)) := by
  cases k with
  | mk curve x y d =>
    simp only at hc
    subst hc
    simp only at hd hx hy
    simp [PrivateKeyToEncryptedPEM, orderBytes_sm2, padTo32_eq hd,
      ellipticMarshal_valid hx hy, encryptPEMBlock, encPrivBlock, encInnerEC]

/-- A valid private key satisfies the three arithmetic bounds of the
reduction lemmas. -/
lemma ValidPriv.bounds {k : SM2PrivateKey} (h : ValidPriv k) :
    k.curve = sm2P256 ∧ (natToBytes k.d).length ≤ 32 ∧
      k.x < 2 ^ 256 ∧ k.y < 2 ^ 256 := by
  obtain ⟨hc, _, hdn, hx, hy⟩ := h
  rw [hc] at hdn hx hy
  exact ⟨hc, natToBytes_length_le32 (lt_trans hdn sm2_n_lt),
    lt_trans hx sm2_p_lt, lt_trans hy sm2_p_lt⟩

/-- The modelled EC-key reader recovers a valid key from the plain inner
structure. -/
lemma readECPrivateKey_plain (k : SM2PrivateKey) (h : ValidPriv k) :
    readECPrivateKey (plainInnerEC k) = Except.ok (ParsedKey.sm2Priv k) := by
  obtain ⟨hc, _, hx, hy⟩ := h.bounds
  cases k with
  | mk curve x y d =>
    simp only at hc
    subst hc
    simp only at hx hy
    simp [readECPrivateKey, plainInnerEC, unmarshalPoint_pad32 hx hy, bytesToNat_pad32]

/-- The modelled EC-key reader recovers a valid key from the standalone
inner structure with the SM2 curve identifier. -/
lemma readECPrivateKey_enc (k : SM2PrivateKey) (h : ValidPriv k) :
    readECPrivateKey (encInnerEC k) = Except.ok (ParsedKey.sm2Priv k) := by
  obtain ⟨hc, _, hx, hy⟩ := h.bounds
  cases k with
  | mk curve x y d =>
    simp only at hc
    subst hc
    simp only at hx hy
    simp [readECPrivateKey, encInnerEC, unmarshalPoint_pad32 hx hy, bytesToNat_pad32]

/-- The modelled PKCS8 parser inverts the plain export's payload. -/
lemma parsePKCS8_plain (k : SM2PrivateKey) (h : ValidPriv k) :
    parsePKCS8PrivateKey (plainPrivBlock k).body = Except.ok (ParsedKey.sm2Priv k) := by
  simp [parsePKCS8PrivateKey, plainPrivBlock, readECPrivateKey_plain k h, oidPublicKeyECDSA]

/-- The modelled PKCS8 parser inverts the encrypted export's plaintext. -/
lemma parsePKCS8_enc (k : SM2PrivateKey) (h : ValidPriv k) :
    parsePKCS8PrivateKey (Bytes.derEC (encInnerEC k)) = Except.ok (ParsedKey.sm2Priv k) := by
  simp [parsePKCS8PrivateKey, readECPrivateKey_enc k h]

/-- The modelled PKIX marshaler on a valid public key. -/
lemma marshalPKIX_valid (q : SM2PublicKey) (h : ValidPub q) :
    marshalPKIXPublicKey q = some (pkixBody q) := by
  obtain ⟨hc, hx, hy⟩ := h
  rw [hc] at hx hy
  cases q with
  | mk curve x y =>
    simp only at hc
    subst hc
    simp only at hx hy
    simp [marshalPKIXPublicKey, pkixBody,
      ellipticMarshal_valid (lt_trans hx sm2_p_lt) (lt_trans hy sm2_p_lt)]

/-- The modelled PKIX parser inverts the PKIX payload of a valid key. -/
lemma parsePKIX_valid (q : SM2PublicKey) (h : ValidPub q) :
    parsePKIXPublicKey (pkixBody q) = Except.ok (ParsedPub.sm2Pub q) := by
  obtain ⟨hc, hx, hy⟩ := h
  rw [hc] at hx hy
  cases q with
  | mk curve x y =>
    simp only at hc
    subst hc
    simp only at hx hy
    simp [parsePKIXPublicKey, pkixBody, oidPublicKeyECDSA,
      unmarshalPoint_pad32 (lt_trans hx sm2_p_lt) (lt_trans hy sm2_p_lt)]

/-- Extracts the bytes stored in the ASN.1 `PrivateKey` scalar field of a
DER payload, looking through the PKCS8 wrapper and PEM encryption. -/
def scalarFieldOfBytes : Bytes → Option (List Nat)
  | Bytes.derEC e => some e.PrivateKey
  | Bytes.derPkcs8 _ _ inner => scalarFieldOfBytes inner
  | Bytes.encrypted payload _ => scalarFieldOfBytes payload
  | _ => none

/-- The serialized scalar field of an exporter's output. -/
def scalarField : GoResult PEMInput → Option (List Nat)
  | GoResult.ok (PEMInput.block b) => scalarFieldOfBytes b.body
  | _ => none

/-- A concrete valid SM2 private key used to witness the claims. -/
def sampleKey : SM2PrivateKey := { curve := sm2P256, x := 2, y := 3, d := 1 }

/-- A concrete valid SM2 public key used to witness the claims. -/
def samplePub : SM2PublicKey := { curve := sm2P256, x := 2, y := 3 }

/-- C1: for every valid SM2 private key `k` (curve set, `D ∈ [1, N-1]`,
in-field point), importing the plain export with an empty password succeeds
and returns a key equal to `k` in `D`, `X`, `Y` and curve identifier. -/
theorem c1_plain_private_roundtrip (k : SM2PrivateKey) (h : ValidPriv k) :
    ∃ pemOut : PEMInput, PrivateKeyToPEM (some k) [] = GoResult.ok pemOut ∧
      PEMtoPrivateKey pemOut [] = GoResult.ok k := by
  obtain ⟨hc, hd, hx, hy⟩ := h.bounds
  refine ⟨PEMInput.block (plainPrivBlock k), PrivateKeyToPEM_plain_ok k hc hd hx hy, ?_⟩
  have hparse := parsePKCS8_plain k h
  have henc : isEncryptedPEMBlock (plainPrivBlock k) = false := rfl
  simp [PEMtoPrivateKey, henc, hparse]

/-- C1 witness: the round trip at a concrete valid key. -/
theorem c1_plain_private_roundtrip_witness :
    ValidPriv sampleKey ∧
      ∃ pemOut : PEMInput, PrivateKeyToPEM (some sampleKey) [] = GoResult.ok pemOut ∧
        PEMtoPrivateKey pemOut [] = GoResult.ok sampleKey :=
  ⟨by decide, c1_plain_private_roundtrip sampleKey (by decide)⟩

/-- C2: for every valid SM2 private key and non-empty password, importing
the encrypted export with the same password succeeds and returns an equal
key, the export being the standalone EC form and the import going through
the PKCS8-style parser. -/
theorem c2_encrypted_private_roundtrip (k : SM2PrivateKey) (p : List Nat)
    (h : ValidPriv k) (hp : p ≠ []) :
    ∃ pemOut : PEMInput, PrivateKeyToPEM (some k) p = GoResult.ok pemOut ∧
      PEMtoPrivateKey pemOut p = GoResult.ok k := by
  obtain ⟨hc, hd, hx, hy⟩ := h.bounds
  have hlen : p.length ≠ 0 := by
    cases p with
    | nil => exact absurd rfl hp
    | cons a l => simp
  refine ⟨PEMInput.block (encPrivBlock k p), ?_, ?_⟩
  · rw [PrivateKeyToPEM, if_pos hlen]
    exact PrivateKeyToEncryptedPEM_ok k p hc hd hx hy
  · have hparse := parsePKCS8_enc k h
    have henc : isEncryptedPEMBlock (encPrivBlock k p) = true := rfl
    have hdec : decryptPEMBlock (encPrivBlock k p) p =
        Except.ok (Bytes.derEC (encInnerEC k)) := by
      simp [decryptPEMBlock, encPrivBlock]
    simp [PEMtoPrivateKey, henc, hlen, hdec, hparse]

/-- C2 witness: the encrypted round trip at a concrete valid key and
password. -/
theorem c2_encrypted_private_roundtrip_witness :
    ValidPriv sampleKey ∧
      ∃ pemOut : PEMInput, PrivateKeyToPEM (some sampleKey) [7, 8] = GoResult.ok pemOut ∧
        PEMtoPrivateKey pemOut [7, 8] = GoResult.ok sampleKey :=
  ⟨by decide, c2_encrypted_private_roundtrip sampleKey [7, 8] (by decide) (by decide)⟩

/-- C3: both private-key export paths serialize `D` left-padded with zeros
to exactly `ceil(bitlen(N)/8)` bytes; the padded field evaluates back to
`D`, and `D = 1` serializes to 32 bytes of which the first 31 are zero. -/
theorem c3_fixed_width_scalar_padding (k : SM2PrivateKey) (h : ValidPriv k) :
    scalarField (PrivateKeyToPEM (some k) []) = some (pad32 k.d) ∧
    (∀ pwd, scalarField (PrivateKeyToEncryptedPEM (some k) pwd) = some (pad32 k.d)) ∧
    (pad32 k.d).length = orderBytes sm2P256 ∧
    bytesToNat (pad32 k.d) = k.d ∧
    (k.d = 1 → pad32 k.d = List.replicate 31 0 ++ [1]) := by
  obtain ⟨hc, hd, hx, hy⟩ := h.bounds
  refine ⟨?_, ?_, ?_, bytesToNat_pad32 k.d, ?_⟩
  · rw [PrivateKeyToPEM_plain_ok k hc hd hx hy]
    simp [scalarField, plainPrivBlock, scalarFieldOfBytes, plainInnerEC]
  · intro pwd
    rw [PrivateKeyToEncryptedPEM_ok k pwd hc hd hx hy]
    simp [scalarField, encPrivBlock, scalarFieldOfBytes, encInnerEC]
  · rw [orderBytes_sm2]
    exact pad32_length hd
  · intro hd1
    rw [hd1]
    decide

/-- C3 witness: the padding facts at a concrete valid key with `D = 1`. -/
theorem c3_fixed_width_scalar_padding_witness :
    ValidPriv sampleKey ∧
      (scalarField (PrivateKeyToPEM (some sampleKey) []) = some (pad32 sampleKey.d) ∧
       (∀ pwd, scalarField (PrivateKeyToEncryptedPEM (some sampleKey) pwd) =
          some (pad32 sampleKey.d)) ∧
       (pad32 sampleKey.d).length = orderBytes sm2P256 ∧
       bytesToNat (pad32 sampleKey.d) = sampleKey.d ∧
       (sampleKey.d = 1 → pad32 sampleKey.d = List.replicate 31 0 ++ [1])) :=
  ⟨by decide, c3_fixed_width_scalar_padding sampleKey (by decide)⟩

/-- C4: for every valid key and empty password the plain export is a PEM
block of type `PRIVATE KEY` carrying the PKCS8-style container with
version 0, the two algorithm identifiers, and the inner `ecPrivateKey`
with version 1, `NamedCurveOID` omitted, and the uncompressed padded
public point. -/
theorem c4_plain_private_export_shape (k : SM2PrivateKey) (h : ValidPriv k) :
    PrivateKeyToPEM (some k) [] = GoResult.ok (PEMInput.block
      { blockType := "PRIVATE KEY"
        encrypted := false
        cipher := none
        body := Bytes.derPkcs8 0 [oidPublicKeyECDSA, oidNamedCurveSm2]
          (Bytes.derEC
            { Version := 1
              PrivateKey := pad32 k.d
              NamedCurveOID := none
              PublicKey := some (4 :: (pad32 k.x ++ pad32 k.y)) }) }) := by
  obtain ⟨hc, hd, hx, hy⟩ := h.bounds
  exact PrivateKeyToPEM_plain_ok k hc hd hx hy

/-- C4 witness: the plain export shape at a concrete valid key. -/
theorem c4_plain_private_export_shape_witness :
    ValidPriv sampleKey ∧
      PrivateKeyToPEM (some sampleKey) [] = GoResult.ok (PEMInput.block
        { blockType := "PRIVATE KEY"
          encrypted := false
          cipher := none
          body := Bytes.derPkcs8 0 [oidPublicKeyECDSA, oidNamedCurveSm2]
            (Bytes.derEC
              { Version := 1
                PrivateKey := pad32 sampleKey.d
                NamedCurveOID := none
                PublicKey := some (4 :: (pad32 sampleKey.x ++ pad32 sampleKey.y)) }) }) :=
  ⟨by decide, c4_plain_private_export_shape sampleKey (by decide)⟩

/-- C5: for every valid key and non-empty password the export is an
encrypted PEM block of type `PRIVATE KEY` (cipher metadata: AES-256) whose
plaintext is the standalone `ecPrivateKey` with version 1, the SM2
`NamedCurveOID` present, the public point included, and no PKCS8 wrapper. -/
theorem c5_encrypted_private_export_shape (k : SM2PrivateKey) (pwd : List Nat)
    (h : ValidPriv k) (hp : pwd ≠ []) :
    PrivateKeyToPEM (some k) pwd = GoResult.ok (PEMInput.block
      { blockType := "PRIVATE KEY"
        encrypted := true
        cipher := some PEMCipher.aes256
        body := Bytes.encrypted (Bytes.derEC
          { Version := 1
            PrivateKey := pad32 k.d
            NamedCurveOID := some oidNamedCurveSm2
            PublicKey := some (4 :: (pad32 k.x ++ pad32 k.y)) }) pwd }) := by
  obtain ⟨hc, hd, hx, hy⟩ := h.bounds
  have hlen : pwd.length ≠ 0 := by
    cases pwd with
    | nil => exact absurd rfl hp
    | cons a l => simp
  rw [PrivateKeyToPEM, if_pos hlen]
  exact PrivateKeyToEncryptedPEM_ok k pwd hc hd hx hy

/-- C5 witness: the encrypted export shape at a concrete valid key and
password. -/
theorem c5_encrypted_private_export_shape_witness :
    ValidPriv sampleKey ∧
      PrivateKeyToPEM (some sampleKey) [9] = GoResult.ok (PEMInput.block
        { blockType := "PRIVATE KEY"
          encrypted := true
          cipher := some PEMCipher.aes256
          body := Bytes.encrypted (Bytes.derEC
            { Version := 1
              PrivateKey := pad32 sampleKey.d
              NamedCurveOID := some oidNamedCurveSm2
              PublicKey := some (4 :: (pad32 sampleKey.x ++ pad32 sampleKey.y)) }) [9] }) :=
  ⟨by decide, c5_encrypted_private_export_shape sampleKey [9] (by decide) (by decide)⟩

/-- C6: in both importers, empty input gives `InvalidInput`; non-empty
input without a parseable PEM block gives `DecodeError`; a block marked
encrypted with an empty password gives `MissingPassword`; and decryption
with a wrong password gives `DecryptionError`, never a key. -/
theorem c6_importer_failure_ladder :
    (∀ pwd, PEMtoPrivateKey PEMInput.empty pwd = GoResult.error KeyError.invalidInput) ∧
    (∀ pwd, PEMtoPublicKey PEMInput.empty pwd = GoResult.error KeyError.invalidInput) ∧
    (∀ pwd, PEMtoPrivateKey PEMInput.noBlock pwd = GoResult.error KeyError.decodeError) ∧
    (∀ pwd, PEMtoPublicKey PEMInput.noBlock pwd = GoResult.error KeyError.decodeError) ∧
    (∀ b : PEMBlock, b.encrypted = true →
      PEMtoPrivateKey (PEMInput.block b) [] = GoResult.error KeyError.missingPassword ∧
      PEMtoPublicKey (PEMInput.block b) [] = GoResult.error KeyError.missingPassword) ∧
    (∀ (b : PEMBlock) (payload : Bytes) (p pwd : List Nat), b.encrypted = true →
      b.body = Bytes.encrypted payload p → pwd ≠ [] → pwd ≠ p →
      PEMtoPrivateKey (PEMInput.block b) pwd = GoResult.error KeyError.decryptionError ∧
      PEMtoPublicKey (PEMInput.block b) pwd = GoResult.error KeyError.decryptionError) := by
  refine ⟨fun pwd => rfl, fun pwd => rfl, fun pwd => rfl, fun pwd => rfl, ?_, ?_⟩
  · intro b hb
    constructor
    · simp [PEMtoPrivateKey, isEncryptedPEMBlock, hb]
    · simp [PEMtoPublicKey, isEncryptedPEMBlock, hb]
  · intro b payload p pwd hb hbody hne hwrong
    have hlen : ¬ pwd.length = 0 := by
      cases pwd with
      | nil => exact absurd rfl hne
      | cons a l => simp
    have hdec : decryptPEMBlock b pwd = Except.error () := by
      simp [decryptPEMBlock, hbody, hwrong]
    constructor
    · simp [PEMtoPrivateKey, isEncryptedPEMBlock, hb, hlen, hdec]
    · simp [PEMtoPublicKey, isEncryptedPEMBlock, hb, hlen, hdec]

/-- C6 witness: two rungs of the ladder at concrete inputs. -/
theorem c6_importer_failure_ladder_witness :
    PEMtoPrivateKey PEMInput.empty [1] = GoResult.error KeyError.invalidInput ∧
    PEMtoPublicKey (PEMInput.block
      { blockType := "PUBLIC KEY"
        encrypted := true
        cipher := some PEMCipher.aes256
        body := Bytes.encrypted Bytes.derOther [1] }) [2] =
      GoResult.error KeyError.decryptionError :=
  ⟨c6_importer_failure_ladder.1 [1],
    (c6_importer_failure_ladder.2.2.2.2.2 _ Bytes.derOther [1] [2] rfl rfl
      (by decide) (by decide)).2⟩

/-- C7: when the DER payload parses to a key that is not of the SM2 kind,
both importers return `TypeMismatch` and no key (on the plain and the
encrypted path); and whenever an importer returns a key, the parsed value
was of the SM2 kind. -/
theorem c7_post_parse_type_check :
    (∀ (b : PEMBlock) (pwd : List Nat), b.encrypted = false →
      parsePKCS8PrivateKey b.body = Except.ok ParsedKey.other →
      PEMtoPrivateKey (PEMInput.block b) pwd = GoResult.error KeyError.typeMismatch) ∧
    (∀ (b : PEMBlock) (payload : Bytes) (p : List Nat), b.encrypted = true →
      b.body = Bytes.encrypted payload p → p ≠ [] →
      parsePKCS8PrivateKey payload = Except.ok ParsedKey.other →
      PEMtoPrivateKey (PEMInput.block b) p = GoResult.error KeyError.typeMismatch) ∧
    (∀ (raw : PEMInput) (pwd : List Nat) (k : SM2PrivateKey),
      PEMtoPrivateKey raw pwd = GoResult.ok k →
      ∃ bs, parsePKCS8PrivateKey bs = Except.ok (ParsedKey.sm2Priv k)) ∧
    (∀ (b : PEMBlock) (pwd : List Nat), b.encrypted = false →
      parsePKIXPublicKey b.body = Except.ok ParsedPub.otherPub →
      PEMtoPublicKey (PEMInput.block b) pwd = GoResult.error KeyError.typeMismatch) ∧
    (∀ (b : PEMBlock) (payload : Bytes) (p : List Nat), b.encrypted = true →
      b.body = Bytes.encrypted payload p → p ≠ [] →
      parsePKIXPublicKey payload = Except.ok ParsedPub.otherPub →
      PEMtoPublicKey (PEMInput.block b) p = GoResult.error KeyError.typeMismatch) ∧
    (∀ (raw : PEMInput) (pwd : List Nat) (q : SM2PublicKey),
      PEMtoPublicKey raw pwd = GoResult.ok q →
      ∃ bs, parsePKIXPublicKey bs = Except.ok (ParsedPub.sm2Pub q)) := by
  refine ⟨?_, ?_, ?_, ?_, ?_, ?_⟩
  · intro b pwd hb hparse
    simp [PEMtoPrivateKey, isEncryptedPEMBlock, hb, hparse]
  · intro b payload p hb hbody hne hparse
    have hlen : ¬ p.length = 0 := by
      cases p with
      | nil => exact absurd rfl hne
      | cons a l => simp
    have hdec : decryptPEMBlock b p = Except.ok payload := by
      simp [decryptPEMBlock, hbody]
    simp [PEMtoPrivateKey, isEncryptedPEMBlock, hb, hlen, hdec, hparse]
  · intro raw pwd k h
    cases raw with
    | empty => simp [PEMtoPrivateKey] at h
    | noBlock => simp [PEMtoPrivateKey] at h
    | block b =>
      simp only [PEMtoPrivateKey] at h
      by_cases he : isEncryptedPEMBlock b = true
      · rw [if_pos he] at h
        by_cases hl : pwd.length = 0
        · rw [if_pos hl] at h
          simp at h
        · rw [if_neg hl] at h
          cases hdec : decryptPEMBlock b pwd with
          | error e => rw [hdec] at h; simp at h
          | ok decrypted =>
            rw [hdec] at h
            dsimp only at h
            cases hparse : parsePKCS8PrivateKey decrypted with
            | error e => rw [hparse] at h; simp at h
            | ok pk =>
              rw [hparse] at h
              cases pk with
              | sm2Priv k' =>
                simp at h
                subst h
                exact ⟨decrypted, hparse⟩
              | other => simp at h
      · rw [if_neg he] at h
        cases hparse : parsePKCS8PrivateKey b.body with
        | error e => rw [hparse] at h; simp at h
        | ok pk =>
          rw [hparse] at h
          cases pk with
          | sm2Priv k' =>
            simp at h
            subst h
            exact ⟨b.body, hparse⟩
          | other => simp at h
  · intro b pwd hb hparse
    simp [PEMtoPublicKey, isEncryptedPEMBlock, hb, hparse]
  · intro b payload p hb hbody hne hparse
    have hlen : ¬ p.length = 0 := by
      cases p with
      | nil => exact absurd rfl hne
      | cons a l => simp
    have hdec : decryptPEMBlock b p = Except.ok payload := by
      simp [decryptPEMBlock, hbody]
    simp [PEMtoPublicKey, isEncryptedPEMBlock, hb, hlen, hdec, hparse]
  · intro raw pwd q h
    cases raw with
    | empty => simp [PEMtoPublicKey] at h
    | noBlock => simp [PEMtoPublicKey] at h
    | block b =>
      simp only [PEMtoPublicKey] at h
      by_cases he : isEncryptedPEMBlock b = true
      · rw [if_pos he] at h
        by_cases hl : pwd.length = 0
        · rw [if_pos hl] at h
          simp at h
        · rw [if_neg hl] at h
          cases hdec : decryptPEMBlock b pwd with
          | error e => rw [hdec] at h; simp at h
          | ok decrypted =>
            rw [hdec] at h
            dsimp only at h
            cases hparse : parsePKIXPublicKey decrypted with
            | error e => rw [hparse] at h; simp at h
            | ok pk =>
              rw [hparse] at h
              cases pk with
              | sm2Pub q' =>
                simp at h
                subst h
                exact ⟨decrypted, hparse⟩
              | otherPub => simp at h
      · rw [if_neg he] at h
        cases hparse : parsePKIXPublicKey b.body with
        | error e => rw [hparse] at h; simp at h
        | ok pk =>
          rw [hparse] at h
          cases pk with
          | sm2Pub q' =>
            simp at h
            subst h
            exact ⟨b.body, hparse⟩
          | otherPub => simp at h

/-- C7 witness: a parseable non-SM2 payload is rejected with
`TypeMismatch` on the private importer's plain path. -/
theorem c7_post_parse_type_check_witness :
    PEMtoPrivateKey (PEMInput.block
      { blockType := "PRIVATE KEY"
        encrypted := false
        cipher := none
        body := Bytes.derOther }) [] = GoResult.error KeyError.typeMismatch :=
  c7_post_parse_type_check.1 _ [] rfl rfl

/-- C8: the private-key exporter called with an empty password produces the
plain, unencrypted output, while the public-key encrypted entry point with
an empty password fails with `MissingPassword`. -/
theorem c8_empty_password_asymmetry (k : SM2PrivateKey) (h : ValidPriv k) :
    (∃ b : PEMBlock, PrivateKeyToPEM (some k) [] = GoResult.ok (PEMInput.block b) ∧
      b.encrypted = false ∧ isEncryptedPEMBlock b = false) ∧
    (∀ q : SM2PublicKey, PublicKeyToEncryptedPEM (some q) [] =
      GoResult.error KeyError.missingPassword) := by
  obtain ⟨hc, hd, hx, hy⟩ := h.bounds
  exact ⟨⟨plainPrivBlock k, PrivateKeyToPEM_plain_ok k hc hd hx hy, rfl, rfl⟩,
    fun q => rfl⟩

/-- C8 witness: the asymmetry at a concrete valid key. -/
theorem c8_empty_password_asymmetry_witness :
    ValidPriv sampleKey ∧
      ((∃ b : PEMBlock, PrivateKeyToPEM (some sampleKey) [] = GoResult.ok (PEMInput.block b) ∧
        b.encrypted = false ∧ isEncryptedPEMBlock b = false) ∧
      (∀ q : SM2PublicKey, PublicKeyToEncryptedPEM (some q) [] =
        GoResult.error KeyError.missingPassword)) :=
  ⟨by decide, c8_empty_password_asymmetry sampleKey (by decide)⟩

/-- C9: for every valid SM2 public key, the plain export re-imports to an
equal key, and so does the encrypted export under any non-empty
password. -/
theorem c9_public_roundtrip (q : SM2PublicKey) (h : ValidPub q) :
    (∃ out : PEMInput, PublicKeyToPEM (some q) [] = GoResult.ok out ∧
      PEMtoPublicKey out [] = GoResult.ok q) ∧
    (∀ p : List Nat, p ≠ [] →
      ∃ out : PEMInput, PublicKeyToPEM (some q) p = GoResult.ok out ∧
        PEMtoPublicKey out p = GoResult.ok q) := by
  have hm := marshalPKIX_valid q h
  have hp := parsePKIX_valid q h
  constructor
  · refine ⟨PEMInput.block
      { blockType := "PUBLIC KEY", encrypted := false, cipher := none,
        body := pkixBody q }, ?_, ?_⟩
    · simp [PublicKeyToPEM, hm]
    · simp [PEMtoPublicKey, isEncryptedPEMBlock, hp]
  · intro p hpne
    have hlen : ¬ p.length = 0 := by
      cases p with
      | nil => exact absurd rfl hpne
      | cons a l => simp
    refine ⟨PEMInput.block (encryptPEMBlock "PUBLIC KEY" (pkixBody q) p PEMCipher.aes256),
      ?_, ?_⟩
    · rw [PublicKeyToPEM, if_pos hlen]
      simp [PublicKeyToEncryptedPEM, hlen, hm]
    · simp [PEMtoPublicKey, isEncryptedPEMBlock, encryptPEMBlock, hlen,
        decryptPEMBlock, hp]

/-- C9 witness: both public round trips at a concrete valid key. -/
theorem c9_public_roundtrip_witness :
    ValidPub samplePub ∧
      ((∃ out : PEMInput, PublicKeyToPEM (some samplePub) [] = GoResult.ok out ∧
        PEMtoPublicKey out [] = GoResult.ok samplePub) ∧
      (∀ p : List Nat, p ≠ [] →
        ∃ out : PEMInput, PublicKeyToPEM (some samplePub) p = GoResult.ok out ∧
          PEMtoPublicKey out p = GoResult.ok samplePub)) :=
  ⟨by decide, c9_public_roundtrip samplePub (by decide)⟩

/-- Oversized scalar encoding makes the encrypted export path hit the
out-of-bounds copy (run-time panic). -/
lemma PrivateKeyToEncryptedPEM_panic (k : SM2PrivateKey) (pwd : List Nat)
    (hc : k.curve = sm2P256) (hlen : 32 < (natToBytes k.d).length) :
    PrivateKeyToEncryptedPEM (some k) pwd = GoResult.panic := by
  cases k with
  | mk curve x y d =>
    simp only at hc
    subst hc
    simp only at hlen
    simp [PrivateKeyToEncryptedPEM, orderBytes_sm2, padTo_none hlen]

/-- Oversized scalar encoding makes the plain export path hit the
out-of-bounds copy (run-time panic). -/
lemma PrivateKeyToPEM_panic (k : SM2PrivateKey)
    (hc : k.curve = sm2P256) (hlen : 32 < (natToBytes k.d).length) :
    PrivateKeyToPEM (some k) [] = GoResult.panic := by
  cases k with
  | mk curve x y d =>
    simp only at hc
    subst hc
    simp only at hlen
    simp [PrivateKeyToPEM, orderBytes_sm2, padTo_none hlen]

/-- C10: with the SM2 curve set and an in-field point, each private-key
export path panics exactly when the byte length of `D` exceeds the
curve-order byte width; under the documented precondition `D ∈ [1, N-1]`
neither path can panic; and any `D` of at least `2^(8·orderBytes)` forces
the panic. -/
theorem c10_padding_copy_bounds (k : SM2PrivateKey) (hc : k.curve = sm2P256)
    (hx : k.x < sm2P256.p) (hy : k.y < sm2P256.p) :
    (PrivateKeyToPEM (some k) [] = GoResult.panic ↔
      orderBytes sm2P256 < (natToBytes k.d).length) ∧
    (∀ pwd : List Nat, PrivateKeyToEncryptedPEM (some k) pwd = GoResult.panic ↔
      orderBytes sm2P256 < (natToBytes k.d).length) ∧
    (1 ≤ k.d ∧ k.d < sm2P256.n →
      PrivateKeyToPEM (some k) [] ≠ GoResult.panic ∧
      ∀ pwd : List Nat, PrivateKeyToEncryptedPEM (some k) pwd ≠ GoResult.panic) ∧
    (2 ^ (8 * orderBytes sm2P256) ≤ k.d →
      PrivateKeyToPEM (some k) [] = GoResult.panic) := by
  have hx' : k.x < 2 ^ 256 := lt_trans hx sm2_p_lt
  have hy' : k.y < 2 ^ 256 := lt_trans hy sm2_p_lt
  rw [orderBytes_sm2]
  have hplain : PrivateKeyToPEM (some k) [] = GoResult.panic ↔
      32 < (natToBytes k.d).length := by
    by_cases hlen : (natToBytes k.d).length ≤ 32
    · rw [PrivateKeyToPEM_plain_ok k hc hlen hx' hy']
      constructor
      · intro hcontra
        exact absurd hcontra (by simp)
      · omega
    · rw [PrivateKeyToPEM_panic k hc (by omega)]
      constructor
      · intro _
        omega
      · intro _
        rfl
  have henc : ∀ pwd : List Nat, PrivateKeyToEncryptedPEM (some k) pwd = GoResult.panic ↔
      32 < (natToBytes k.d).length := by
    intro pwd
    by_cases hlen : (natToBytes k.d).length ≤ 32
    · rw [PrivateKeyToEncryptedPEM_ok k pwd hc hlen hx' hy']
      constructor
      · intro hcontra
        exact absurd hcontra (by simp)
      · omega
    · rw [PrivateKeyToEncryptedPEM_panic k pwd hc (by omega)]
      constructor
      · intro _
        omega
      · intro _
        rfl
  refine ⟨hplain, henc, ?_, ?_⟩
  · rintro ⟨_, hdn⟩
    have hd32 : (natToBytes k.d).length ≤ 32 :=
      natToBytes_length_le32 (lt_trans hdn sm2_n_lt)
    constructor
    · intro hcontra
      rw [hplain] at hcontra
      omega
    · intro pwd hcontra
      rw [henc pwd] at hcontra
      omega
  · intro hbig
    rw [hplain]
    have : (8 : Nat) * 32 = 256 := by norm_num
    rw [this] at hbig
    exact natToBytes_length_gt (k := 32) (by norm_num [this] at hbig ⊢; exact hbig)

/-- C10 witness: at a concrete valid key both paths are panic-free, and
the iff instances hold. -/
theorem c10_padding_copy_bounds_witness :
    sampleKey.curve = sm2P256 ∧ sampleKey.x < sm2P256.p ∧ sampleKey.y < sm2P256.p ∧
    ((PrivateKeyToPEM (some sampleKey) [] = GoResult.panic ↔
      orderBytes sm2P256 < (natToBytes sampleKey.d).length) ∧
    (∀ pwd : List Nat, PrivateKeyToEncryptedPEM (some sampleKey) pwd = GoResult.panic ↔
      orderBytes sm2P256 < (natToBytes sampleKey.d).length) ∧
    (1 ≤ sampleKey.d ∧ sampleKey.d < sm2P256.n →
      PrivateKeyToPEM (some sampleKey) [] ≠ GoResult.panic ∧
      ∀ pwd : List Nat, PrivateKeyToEncryptedPEM (some sampleKey) pwd ≠ GoResult.panic) ∧
    (2 ^ (8 * orderBytes sm2P256) ≤ sampleKey.d →
      PrivateKeyToPEM (some sampleKey) [] = GoResult.panic)) :=
  ⟨rfl, by decide, by decide,
    c10_padding_copy_bounds sampleKey rfl (by decide) (by decide)⟩
